import Mathlib

/-!
Verification development for `segmask.py`, a pipeline-orchestration script
that masks organelle segmentations against a cell-boundary model.

The Python source is shallowly embedded: pure helpers become Lean functions,
the stateful accumulation loop becomes explicit state passing, Python list
indexing (with negative wraparound) becomes a total Lean function returning
`Option`, and fatal validation paths become `Except` errors carrying the
exit code and message.  Machine integers in the script are plain Python
ints, so `Nat`/`Int` model them exactly.
-/

namespace Segmask

/-! ## Z extraction from a contour (`get_z_from_ImodContour`, lines 120-133)

A contour is a flat list of coordinates `x, y, z, x, y, z, ...`; the Python
code takes `cont.points[2::3]` (every third element starting at index 2),
truncates to int, and applies `np.unique`, which returns the sorted list of
distinct values. -/

/-- The Python slice `points[2::3]`: every third element starting at index 2. -/
def sliceStep3From2 : List Int → List Int
  | _ :: _ :: z :: rest => z :: sliceStep3From2 rest
  | _ => []

/-- Embedding of `np.unique`: the sorted list of distinct values. -/
def npUnique (l : List Int) : List Int :=
  (List.insertionSort (· ≤ ·) l).dedup

/-- Embedding of `get_z_from_ImodContour` (lines 120-133).  The branch
condition in the source is `if len(cont_u == 1):`.  In numpy, `cont_u == 1`
is an elementwise comparison producing an array of the same length as
`cont_u`, so `len(cont_u == 1)` equals `len(cont_u)` and the condition is
truthy exactly when the contour has at least one point.  Consequently the
`else` branch (which would compute a mode and print the multi-Z warning) is
reached only for an empty contour, where `max(set(cont_u), ...)` raises,
modelled as `none`.  The returned pair is the selected Z value and whether
the multi-Z warning was printed. -/
def get_z_from_ImodContour (points : List Int) : Option (Int × Bool) :=
  let cont_u := npUnique (sliceStep3From2 points)
  if (cont_u.map (fun v => v == 1)).length ≠ 0 then
    some (cont_u.headD 0, false)
  else
    none

/-- Supporting fact: on a contour whose Z coordinates are all equal to `v`,
the embedded function returns exactly `v` and prints no warning, as both the
claim and the source agree. -/
theorem get_z_single_value (points : List Int) (v : Int)
    (hne : sliceStep3From2 points ≠ [])
    (hall : ∀ z ∈ sliceStep3From2 points, z = v) :
    get_z_from_ImodContour points = some (v, false) := by
  unfold get_z_from_ImodContour
  set zs := sliceStep3From2 points with hzs
  have hperm := List.perm_insertionSort (· ≤ ·) zs
  have hmem : ∀ a ∈ npUnique zs, a = v := by
    intro a ha
    exact hall a (hperm.mem_iff.mp (List.mem_dedup.mp ha))
  have hnil : npUnique zs ≠ [] := by
    intro hcon
    have hs : List.insertionSort (· ≤ ·) zs = [] := by
      simpa [npUnique, List.dedup_eq_nil] using hcon
    rw [hs] at hperm
    exact hne hperm.symm.eq_nil
  cases hu : npUnique zs with
  | nil => exact absurd hu hnil
  | cons a rest =>
    have hav : a = v := hmem a (by rw [hu]; exact List.mem_cons_self a rest)
    simp [hu, hav]

/-- Claim C1: the claim states that for a contour with mixed Z values the
function returns the Z value with greatest multiplicity and emits the
multi-Z warning, matching the docstring of `get_z_from_ImodContour`.  The
code does not: on the contour whose flat points are
`[0, 0, 5, 0, 0, 7, 0, 0, 7]` (Z coordinates `[5, 7, 7]`, so 7 has the
greatest multiplicity), it returns 5 — the first element of the sorted
unique list — and prints no warning, because `len(cont_u == 1)` is the
length of an elementwise comparison array and is truthy for every nonempty
contour, making the mode/warning branch unreachable. -/
theorem get_z_multiZ_code_bug :
    sliceStep3From2 [0, 0, 5, 0, 0, 7, 0, 0, 7] = [5, 7, 7] ∧
    get_z_from_ImodContour [0, 0, 5, 0, 0, 7, 0, 0, 7] = some (5, false) ∧
    [(5 : Int), 7, 7].count 5 < [(5 : Int), 7, 7].count 7 := by
  refine ⟨by decide, ?_, by decide⟩
  decide

/-! ## The zlist loop (lines 192-203)

The script walks the sorted contours of the first Object, collecting their
Z values into `zlist`; `zprev` starts at `zmin`, which is the Z value of
contour 0, and a "Missing contour" warning is printed at iteration `i`
exactly when `i` is truthy (nonzero) and the current Z differs from
`zprev + 1`.  The embedding returns the built `zlist` together with the
list of loop indices at which the warning was printed. -/

/-- One pass of the loop body, carrying `zprev` and the loop index. -/
def zScanAux : Int → Nat → List Int → List Int × List Nat
  | _, _, [] => ([], [])
  | zprev, i, z :: rest =>
    (z :: (zScanAux z (i + 1) rest).1,
      (if i ≠ 0 ∧ z ≠ zprev + 1 then [i] else []) ++ (zScanAux z (i + 1) rest).2)

/-- The full loop: `zprev` is initialised to the Z value of contour 0
(`zmin`, line 187/194). -/
def buildZlist (zs : List Int) : List Int × List Nat :=
  match zs with
  | [] => ([], [])
  | z0 :: rest => zScanAux z0 0 (z0 :: rest)

theorem zScanAux_fst (zs : List Int) : ∀ zprev i, (zScanAux zprev i zs).1 = zs := by
  induction zs with
  | nil => intro _ _; rfl
  | cons z rest ih => intro zprev i; simp [zScanAux, ih]

theorem zScanAux_warn_mem (zs : List Int) : ∀ zprev i j,
    j ∈ (zScanAux zprev i zs).2 ↔
      ∃ k, k < zs.length ∧ j = i + k ∧ i + k ≠ 0 ∧
        zs.getD k 0 ≠ (if k = 0 then zprev else zs.getD (k - 1) 0) + 1 := by
  induction zs with
  | nil => simp [zScanAux]
  | cons z rest ih =>
    intro zprev i j
    simp only [zScanAux, List.mem_append]
    constructor
    · rintro (h0 | hrest)
      · by_cases hc : i ≠ 0 ∧ z ≠ zprev + 1
        · rw [if_pos hc] at h0
          simp only [List.mem_singleton] at h0
          subst h0
          exact ⟨0, by simp, by omega, by omega, by simpa using hc.2⟩
        · rw [if_neg hc] at h0
          simp at h0
      · obtain ⟨k, hk, hj, hik, hne⟩ := (ih z (i + 1) j).1 hrest
        refine ⟨k + 1, by simpa using hk, by omega, by omega, ?_⟩
        cases k with
        | zero => simpa using hne
        | succ k2 => simpa using hne
    · rintro ⟨k, hk, hj, hik, hne⟩
      cases k with
      | zero =>
        left
        have hc : i ≠ 0 ∧ z ≠ zprev + 1 := ⟨by omega, by simpa using hne⟩
        rw [if_pos hc]
        simp only [List.mem_singleton]
        omega
      | succ k2 =>
        right
        apply (ih z (i + 1) j).2
        refine ⟨k2, by simpa using hk, by omega, by omega, ?_⟩
        cases k2 with
        | zero => simpa using hne
        | succ k3 => simpa using hne

/-- Claim C4: while building `zlist`, the "missing contour" warning is
printed exactly at the positions `j > 0` where the Z value of contour `j`
differs from the Z value of contour `j - 1` plus 1, and never otherwise
(in particular never at position 0); the warning does not abort the loop,
which still produces the full `zlist`. -/
theorem zlist_gap_warning (zs : List Int) (j : Nat) :
    (buildZlist zs).1 = zs ∧
    (j ∈ (buildZlist zs).2 ↔
      0 < j ∧ j < zs.length ∧ zs.getD j 0 ≠ zs.getD (j - 1) 0 + 1) := by
  cases zs with
  | nil => simp [buildZlist]
  | cons z0 rest =>
    refine ⟨zScanAux_fst _ _ _, ?_⟩
    rw [buildZlist, zScanAux_warn_mem]
    constructor
    · rintro ⟨k, hk, hj, hik, hne⟩
      subst hj
      simp only [Nat.zero_add] at hik ⊢
      refine ⟨by omega, hk, ?_⟩
      cases k with
      | zero => omega
      | succ k2 => simpa using hne
    · rintro ⟨hj0, hjlen, hne⟩
      refine ⟨j, hjlen, by omega, by omega, ?_⟩
      cases j with
      | zero => omega
      | succ j2 => simpa using hne

/-! ## Point accumulation (lines 277-292)

Each per-slice point listing is a text file of records
`objectIndex contourIndex x y z`.  If the file is empty (`st_size == 0`)
the slice is skipped and the running counter `C` is untouched.  Otherwise
the last line is read, its second field (`lsplit[1]`, the contour index)
becomes `ncont`, every line is appended to the accumulator with the object
field rewritten to the literal `1` and the contour field offset by `C`, and
finally `C += ncont`. -/

/-- One record of a point listing. -/
structure PointRec where
  obj : Nat
  cont : Nat
  x : Int
  y : Int
  z : Int
deriving DecidableEq

/-- The value `ncont`: the contour-index field of the last line of a listing
(line 283); the value is only consulted for a non-empty listing, so the
default 0 for an empty listing is never used by `accumSlice`. -/
def ncontOf (listing : List PointRec) : Nat :=
  match listing.getLast? with
  | some r => r.cont
  | none => 0

/-- One iteration of the accumulation block: the appended records paired
with the updated counter. -/
def accumSlice (C : Nat) (listing : List PointRec) : List PointRec × Nat :=
  if listing = [] then ([], C)
  else
    (listing.map (fun r => { obj := 1, cont := r.cont + C, x := r.x, y := r.y, z := r.z }),
      C + ncontOf listing)

/-- The whole loop over slices, threading the counter `C` and concatenating
the appended records in slice order. -/
def accumAll (C : Nat) : List (List PointRec) → List PointRec × Nat
  | [] => ([], C)
  | s :: rest =>
    ((accumSlice C s).1 ++ (accumAll (accumSlice C s).2 rest).1,
      (accumAll (accumSlice C s).2 rest).2)

theorem accumSlice_snd (C : Nat) (s : List PointRec) :
    (accumSlice C s).2 = C + ncontOf s := by
  by_cases h : s = []
  · subst h; simp [accumSlice, ncontOf]
  · simp [accumSlice, h]

theorem accumAll_snd (slices : List (List PointRec)) : ∀ C,
    (accumAll C slices).2 = C + (slices.map ncontOf).sum := by
  induction slices with
  | nil => intro C; simp [accumAll]
  | cons s rest ih =>
    intro C
    simp [accumAll, ih, accumSlice_snd]
    omega

/-- Claim C2: the counter after the loop equals the sum of the per-slice
contour counts `n_i` read from the last line of each listing; every record
appended for a slice processed at counter value `C` has its contour index
in `[C + 1, C + n_i]` whenever the original indices lie in `[1, n_i]`; and
an empty listing appends nothing and leaves the counter unchanged. -/
theorem accum_counter_and_offsets (slices : List (List PointRec)) (C0 : Nat)
    (h : ∀ s ∈ slices, ∀ r ∈ s, 1 ≤ r.cont ∧ r.cont ≤ ncontOf s) :
    (accumAll C0 slices).2 = C0 + (slices.map ncontOf).sum ∧
    (∀ s ∈ slices, ∀ C : Nat, ∀ r ∈ (accumSlice C s).1,
      C + 1 ≤ r.cont ∧ r.cont ≤ C + ncontOf s) ∧
    (∀ C : Nat, accumSlice C ([] : List PointRec) = ([], C)) := by
  refine ⟨accumAll_snd slices C0, ?_, fun C => by simp [accumSlice]⟩
  intro s hs C r hr
  by_cases hnil : s = []
  · subst hnil; simp [accumSlice] at hr
  · simp only [accumSlice, if_neg hnil, List.mem_map] at hr
    obtain ⟨r0, hr0, hmap⟩ := hr
    have hb := h s hs r0 hr0
    subst hmap
    simp only []
    omega

/-- Witness for C2 at a concrete run: slices with listings of 2, 0 and 1
contours respectively. -/
theorem accum_counter_and_offsets_witness :
    (∀ s ∈ [[({ obj := 1, cont := 1, x := 0, y := 0, z := 0 } : PointRec),
              { obj := 1, cont := 2, x := 9, y := 9, z := 0 }], [],
             [{ obj := 1, cont := 1, x := 3, y := 4, z := 5 }]],
      ∀ r ∈ s, 1 ≤ r.cont ∧ r.cont ≤ ncontOf s) ∧
    ((accumAll 0 [[({ obj := 1, cont := 1, x := 0, y := 0, z := 0 } : PointRec),
                   { obj := 1, cont := 2, x := 9, y := 9, z := 0 }], [],
                  [{ obj := 1, cont := 1, x := 3, y := 4, z := 5 }]]).2 =
        0 + ([[({ obj := 1, cont := 1, x := 0, y := 0, z := 0 } : PointRec),
               { obj := 1, cont := 2, x := 9, y := 9, z := 0 }], [],
              [{ obj := 1, cont := 1, x := 3, y := 4, z := 5 }]].map ncontOf).sum ∧
      (∀ s ∈ [[({ obj := 1, cont := 1, x := 0, y := 0, z := 0 } : PointRec),
               { obj := 1, cont := 2, x := 9, y := 9, z := 0 }], [],
              [{ obj := 1, cont := 1, x := 3, y := 4, z := 5 }]],
        ∀ C : Nat, ∀ r ∈ (accumSlice C s).1,
          C + 1 ≤ r.cont ∧ r.cont ≤ C + ncontOf s) ∧
      (∀ C : Nat, accumSlice C ([] : List PointRec) = ([], C))) :=
  ⟨by decide, accum_counter_and_offsets _ 0 (by decide)⟩

/-- Claim C9: every record appended to the accumulator has its object-index
field equal to the constant 1, regardless of the object index found in the
per-slice listing. -/
theorem accum_object_index_one (C0 : Nat) (slices : List (List PointRec)) :
    ∀ r ∈ (accumAll C0 slices).1, r.obj = 1 := by
  induction slices generalizing C0 with
  | nil => intro r hr; simp [accumAll] at hr
  | cons s rest ih =>
    intro r hr
    simp only [accumAll, List.mem_append] at hr
    rcases hr with hr | hr
    · by_cases hnil : s = []
      · subst hnil; simp [accumSlice] at hr
      · simp only [accumSlice, if_neg hnil, List.mem_map] at hr
        obtain ⟨r0, _, hmap⟩ := hr
        subst hmap
        rfl
    · exact ih _ r hr

/-- Witness for C9: a listing whose object index is 3 is rewritten to 1. -/
theorem accum_object_index_one_witness :
    ({ obj := 1, cont := 1, x := 0, y := 0, z := 0 } : PointRec) ∈
      (accumAll 0 [[{ obj := 3, cont := 1, x := 0, y := 0, z := 0 }]]).1 ∧
    ({ obj := 1, cont := 1, x := 0, y := 0, z := 0 } : PointRec).obj = 1 :=
  ⟨by decide, accum_object_index_one 0 [[{ obj := 3, cont := 1, x := 0, y := 0, z := 0 }]]
    { obj := 1, cont := 1, x := 0, y := 0, z := 0 } (by decide)⟩

/-! ## Argument and output validation (`check_args`, `usage`, lines 106-159)

All validation failures call `usage(errstr)`, which prints the help text
followed by the error string and terminates via `exit(1)`.  The embedding
returns `Except.error (1, errstr)` for those paths; the filesystem is
abstracted to two predicates. -/

/-- The relevant filesystem observations: `os.path.isfile` and
`os.path.isdir`. -/
structure FS where
  isFile : String → Bool
  isDir : String → Bool

/-- Embedding of `check_args` (lines 106-118): validates the three
positional arguments in order, failing through `usage` with exit code 1. -/
def check_args (fs : FS) (args : List String) :
    Except (Nat × String) (String × String × String) :=
  if args.length ≠ 3 then
    Except.error (1, "Improper number of arguments.")
  else if ¬ fs.isFile (args.getD 0 "") then
    Except.error (1, args.getD 0 "" ++ " is not a valid file.")
  else if ¬ fs.isFile (args.getD 1 "") then
    Except.error (1, args.getD 1 "" ++ " is not a valid file.")
  else if ¬ fs.isDir (args.getD 2 "") then
    Except.error (1, "The path " ++ args.getD 2 "" ++ " does not exist")
  else
    Except.ok (args.getD 0 "", args.getD 1 "", args.getD 2 "")

/-- True when the final character of `s` is the path separator. -/
def strEndsWithSlash (s : String) : Bool :=
  s.data.getLast? == some '/'

/-- Embedding of `os.path.join` for the relative, non-empty components the script uses. -/
def osJoin (a b : String) : String :=
  if strEndsWithSlash a then a ++ b else a ++ "/" ++ b

/-- Embedding of the `__main__` prologue (lines 144-159): argument checks,
then the output-path check, then the pre-existing `tmp` directory check,
each failing through `usage` with exit code 1. -/
def setupRun (fs : FS) (args : List String) (optPathOut : Option String)
    (cwd : String) : Except (Nat × String) (String × String × String × String) :=
  match check_args fs args with
  | Except.error e => Except.error e
  | Except.ok (file_mrc, file_mod, path_seg) =>
    if ¬ fs.isDir (optPathOut.getD cwd) then
      Except.error (1, "The output path " ++ optPathOut.getD cwd ++ " does not exist.")
    else if fs.isDir (osJoin (optPathOut.getD cwd) "tmp") then
      Except.error (1, "There is already a folder with the name tmp in the output path "
        ++ optPathOut.getD cwd)
    else
      Except.ok (file_mrc, file_mod, path_seg, optPathOut.getD cwd)

/-- The observable stages of a run after validation, in program order
(model load at line 163, the per-slice loop, assembly, postprocessing). -/
inductive RunEv
  | loadModel
  | sliceStep (z : Int)
  | assembleModel
  | postprocess
deriving DecidableEq

/-- The run as a whole: validation first; only on success does the program
go on to load the model, process slices, assemble, and postprocess. -/
def programEvents (fs : FS) (args : List String) (optPathOut : Option String)
    (cwd : String) (zlist : List Int) (runPost : Bool) :
    Except (Nat × String) (List RunEv) :=
  match setupRun fs args optPathOut cwd with
  | Except.error e => Except.error e
  | Except.ok _ =>
    Except.ok (RunEv.loadModel :: (zlist.map RunEv.sliceStep ++ [RunEv.assembleModel]
      ++ if runPost then [RunEv.postprocess] else []))

theorem check_args_error_code (fs : FS) (args : List String) (e : Nat × String)
    (hc : check_args fs args = Except.error e) : e.1 = 1 := by
  unfold check_args at hc
  split_ifs at hc
  all_goals simp only [Except.error.injEq] at hc
  all_goals exact congrArg Prod.fst hc.symm

theorem check_args_ok_conditions (fs : FS) (args : List String)
    (v : String × String × String) (hc : check_args fs args = Except.ok v) :
    args.length = 3 ∧ fs.isFile (args.getD 0 "") ∧ fs.isFile (args.getD 1 "") ∧
      fs.isDir (args.getD 2 "") := by
  unfold check_args at hc
  split_ifs at hc with h1 h2 h3 h4
  simp_all

theorem programEvents_of_check_error (fs : FS) (args : List String)
    (optPathOut : Option String) (cwd : String) (zlist : List Int) (runPost : Bool)
    (e : Nat × String) (hc : check_args fs args = Except.error e) :
    programEvents fs args optPathOut cwd zlist runPost = Except.error e := by
  unfold programEvents setupRun
  rw [hc]

theorem setupRun_of_check_ok (fs : FS) (args : List String)
    (optPathOut : Option String) (cwd : String) (v : String × String × String)
    (hc : check_args fs args = Except.ok v) :
    setupRun fs args optPathOut cwd =
      (if ¬ fs.isDir (optPathOut.getD cwd) then
        Except.error (1, "The output path " ++ optPathOut.getD cwd ++ " does not exist.")
      else if fs.isDir (osJoin (optPathOut.getD cwd) "tmp") then
        Except.error (1, "There is already a folder with the name tmp in the output path "
          ++ optPathOut.getD cwd)
      else
        Except.ok (v.1, v.2.1, v.2.2, optPathOut.getD cwd)) := by
  unfold setupRun
  rw [hc]

/-- Claim C6: any invocation with a wrong number of positional arguments, a
missing volume file, model file or segmentation directory, a missing output
path, or a pre-existing `tmp` directory under the output path terminates
with exit code 1 and an error message, before any model loading or slice
processing (which only occur in the `Except.ok` branch of the run). -/
theorem validation_failure_exits_one (fs : FS) (args : List String)
    (optPathOut : Option String) (cwd : String) (zlist : List Int) (runPost : Bool)
    (h : args.length ≠ 3 ∨ ¬ fs.isFile (args.getD 0 "") ∨ ¬ fs.isFile (args.getD 1 "") ∨
      ¬ fs.isDir (args.getD 2 "") ∨ ¬ fs.isDir (optPathOut.getD cwd) ∨
      fs.isDir (osJoin (optPathOut.getD cwd) "tmp")) :
    ∃ msg, programEvents fs args optPathOut cwd zlist runPost = Except.error (1, msg) := by
  cases hc : check_args fs args with
  | error e =>
    have he1 : e.1 = 1 := check_args_error_code fs args e hc
    refine ⟨e.2, ?_⟩
    rw [programEvents_of_check_error fs args optPathOut cwd zlist runPost e hc]
    cases e
    simp_all
  | ok v =>
    obtain ⟨hl, hf0, hf1, hd2⟩ := check_args_ok_conditions fs args v hc
    have h56 : ¬ fs.isDir (optPathOut.getD cwd) ∨
        fs.isDir (osJoin (optPathOut.getD cwd) "tmp") := by
      rcases h with h | h | h | h | h | h <;> simp_all
    unfold programEvents
    rw [setupRun_of_check_ok fs args optPathOut cwd v hc]
    by_cases h5 : ¬ fs.isDir (optPathOut.getD cwd)
    · rw [if_pos h5]; exact ⟨_, rfl⟩
    · rw [if_neg h5]
      have h6 : fs.isDir (osJoin (optPathOut.getD cwd) "tmp") = true := by tauto
      rw [if_pos h6]
      exact ⟨_, rfl⟩

/-- Witness for C6: an invocation with no arguments on an empty filesystem
exits with code 1. -/
theorem validation_failure_exits_one_witness :
    (([] : List String).length ≠ 3 ∨
      ¬ (FS.mk (fun _ => false) (fun _ => false)).isFile (([] : List String).getD 0 "") ∨
      ¬ (FS.mk (fun _ => false) (fun _ => false)).isFile (([] : List String).getD 1 "") ∨
      ¬ (FS.mk (fun _ => false) (fun _ => false)).isDir (([] : List String).getD 2 "") ∨
      ¬ (FS.mk (fun _ => false) (fun _ => false)).isDir ((none : Option String).getD "/cwd") ∨
      (FS.mk (fun _ => false) (fun _ => false)).isDir
        (osJoin ((none : Option String).getD "/cwd") "tmp")) ∧
    (∃ msg, programEvents (FS.mk (fun _ => false) (fun _ => false)) [] none "/cwd" [] false =
      Except.error (1, msg)) :=
  ⟨by decide,
    validation_failure_exits_one (FS.mk (fun _ => false) (fun _ => false)) [] none "/cwd" [] false
      (by decide)⟩

/-! ## Output model paths (lines 278, 296-299, 335)

`file_out` is the join of `path_tmp` and the component `out`, where
`path_tmp` joins the output path with the component `tmp`; `point2model`
writes the `.mod` suffix of `file_out` and the postprocessing stage writes
only the `_postprocessed.mod` suffix (via `pyimod.ImodWrite`, line 335). -/

/-- The directory `path_tmp` (line 155). -/
def path_tmpOf (path_out : String) : String := osJoin path_out "tmp"

/-- The stem `file_out` (line 278). -/
def file_outOf (path_out : String) : String := osJoin (path_tmpOf path_out) "out"

/-- The assembled model file written by `point2model` (lines 296-299). -/
def assembledModelPath (path_out : String) : String := file_outOf path_out ++ ".mod"

/-- The postprocessed model file written by `pyimod.ImodWrite` (line 335). -/
def postprocessedModelPath (path_out : String) : String :=
  file_outOf path_out ++ "_postprocessed.mod"

/-- The files written by the postprocessing block (lines 301-335): a single
`ImodWrite` to the postprocessed path; every other step operates on the
in-memory model object. -/
def postprocessWrittenPaths (path_out : String) : List String :=
  [postprocessedModelPath path_out]

theorem strEndsWithSlash_append (p s : String) (hs : s.data ≠ [])
    (hlast : s.data.getLast? ≠ some '/') : strEndsWithSlash (p ++ s) = false := by
  rw [strEndsWithSlash, String.data_append, List.getLast?_append_of_ne_nil _ hs]
  simpa using hlast

theorem osJoin_no_slash (p b : String) (h : strEndsWithSlash p = false) :
    osJoin p b = p ++ "/" ++ b := by
  rw [osJoin, h]
  simp

/-- Claim C7: the assembled model is written to `out.mod` and the
postprocessed model to `out_postprocessed.mod`, both under the resolved
output path (inside its `tmp` subdirectory); the two paths are distinct,
and the postprocessing stage writes only the postprocessed file, leaving
the assembled `out.mod` untouched. -/
theorem output_model_paths (p : String) (h : strEndsWithSlash p = false) :
    assembledModelPath p = p ++ "/tmp/out.mod" ∧
    postprocessedModelPath p = p ++ "/tmp/out_postprocessed.mod" ∧
    assembledModelPath p ≠ postprocessedModelPath p ∧
    (∃ rest, assembledModelPath p = p ++ "/" ++ rest) ∧
    (∃ rest, postprocessedModelPath p = p ++ "/" ++ rest) ∧
    postprocessWrittenPaths p = [postprocessedModelPath p] ∧
    assembledModelPath p ∉ postprocessWrittenPaths p := by
  have htmp : path_tmpOf p = p ++ "/" ++ "tmp" := osJoin_no_slash p "tmp" h
  have htmp2 : strEndsWithSlash (path_tmpOf p) = false := by
    rw [htmp, String.append_assoc]
    exact strEndsWithSlash_append p ("/" ++ "tmp") (by decide) (by decide)
  have hout : file_outOf p = p ++ "/tmp/out" := by
    rw [file_outOf, osJoin_no_slash _ "out" htmp2, htmp]
    simp only [String.append_assoc]
    rfl
  have h1 : assembledModelPath p = p ++ "/tmp/out.mod" := by
    rw [assembledModelPath, hout, String.append_assoc]
    rfl
  have h2 : postprocessedModelPath p = p ++ "/tmp/out_postprocessed.mod" := by
    rw [postprocessedModelPath, hout, String.append_assoc]
    rfl
  have hne : assembledModelPath p ≠ postprocessedModelPath p := by
    rw [h1, h2]
    intro hcon
    have hlc := congrArg String.length hcon
    have hlen1 : ("/tmp/out.mod" : String).length = 12 := by decide
    have hlen2 : ("/tmp/out_postprocessed.mod" : String).length = 26 := by decide
    simp only [String.length_append, hlen1, hlen2] at hlc
    omega
  refine ⟨h1, h2, hne, ⟨"tmp/out.mod", by rw [h1, String.append_assoc]; rfl⟩,
    ⟨"tmp/out_postprocessed.mod", by rw [h2, String.append_assoc]; rfl⟩, rfl, ?_⟩
  rw [postprocessWrittenPaths]
  simpa using hne

/-- Witness for C7 at the output path `/data`. -/
theorem output_model_paths_witness :
    strEndsWithSlash "/data" = false ∧
    (assembledModelPath "/data" = "/data" ++ "/tmp/out.mod" ∧
      postprocessedModelPath "/data" = "/data" ++ "/tmp/out_postprocessed.mod" ∧
      assembledModelPath "/data" ≠ postprocessedModelPath "/data" ∧
      (∃ rest, assembledModelPath "/data" = "/data" ++ "/" ++ rest) ∧
      (∃ rest, postprocessedModelPath "/data" = "/data" ++ "/" ++ rest) ∧
      postprocessWrittenPaths "/data" = [postprocessedModelPath "/data"] ∧
      assembledModelPath "/data" ∉ postprocessWrittenPaths "/data") :=
  ⟨by decide, output_model_paths "/data" (by decide)⟩

/-! ## Temp-file naming (`str.zfill`, line 225) -/

/-- Python `str.zfill(w)`: left-pad with zeros to width `w`. -/
def zfill (w : Nat) (s : String) : String :=
  if s.length < w then String.mk (List.replicate (w - s.length) '0') ++ s else s

/-- The stem `file_tmp` for slice `zi` (line 225): the zero-filled slice number joined under `path_tmp`. -/
def file_tmpOf (path_tmp : String) (zi : Int) : String :=
  osJoin path_tmp (zfill 4 (toString zi))

/-- The path the cell-mask TIF is read from (line 236). -/
def cellMaskTifPath (path_tmp : String) (zi : Int) : String :=
  file_tmpOf path_tmp zi ++ ".tif"

/-- The path the intersection mask is saved to (line 251). -/
def maskWritePath (path_tmp : String) (zi : Int) : String :=
  file_tmpOf path_tmp zi ++ ".tif"

/-! ## Per-slice raster intersection (lines 241-251)

Rasters are rectangular integer matrices; `np.logical_and` treats a pixel
as true when it is nonzero.  The resampling performed by the external
`scipy.misc.imresize` is taken as a parameter `resize`, about which the
theorems assume only that it returns a raster of the requested shape. -/

/-- A raster image: a list of rows of pixel values. -/
abbrev Mat (α : Type) := List (List α)

/-- Predicate: `m` is a rectangular `r` by `c` matrix. -/
def Rect {α : Type} (r c : Nat) (m : Mat α) : Prop :=
  m.length = r ∧ ∀ row ∈ m, row.length = c

/-- numpy `shape`: (number of rows, length of the first row). -/
def matShape {α : Type} (m : Mat α) : Nat × Nat :=
  (m.length, (m.headD []).length)

/-- Embedding of `np.logical_and`, elementwise on two rasters. -/
def matAnd (a b : Mat Nat) : Mat Bool :=
  List.zipWith (fun ra rb => List.zipWith (fun x y => decide (x ≠ 0) && decide (y ≠ 0)) ra rb) a b

/-- Lines 242-243: when the cell-mask shape mismatches the native volume
shape, the cell image is replaced by a resize of the organelle image. -/
def resizedCell (resize : Mat Nat → Nat → Nat → Mat Nat) (nRow nCol : Nat)
    (imgCell imgOrg : Mat Nat) : Mat Nat :=
  if imgCell.length ≠ nRow ∨ (imgCell.headD []).length ≠ nCol then
    resize imgOrg nRow nCol
  else imgCell

/-- Lines 245-246: when the organelle shape mismatches, the organelle image
is resized from itself. -/
def resizedOrg (resize : Mat Nat → Nat → Nat → Mat Nat) (nRow nCol : Nat)
    (imgOrg : Mat Nat) : Mat Nat :=
  if imgOrg.length ≠ nRow ∨ (imgOrg.headD []).length ≠ nCol then
    resize imgOrg nRow nCol
  else imgOrg

/-- Line 249: the intersection mask written for the slice. -/
def imgMaskOf (resize : Mat Nat → Nat → Nat → Mat Nat) (nRow nCol : Nat)
    (imgCell imgOrg : Mat Nat) : Mat Bool :=
  matAnd (resizedCell resize nRow nCol imgCell imgOrg) (resizedOrg resize nRow nCol imgOrg)

theorem matAnd_row_len : ∀ (a b : Mat Nat) (c : Nat),
    (∀ ra ∈ a, ra.length = c) → (∀ rb ∈ b, rb.length = c) →
    ∀ row ∈ matAnd a b, row.length = c := by
  intro a
  induction a with
  | nil => intro b c _ _ row hrow; simp [matAnd] at hrow
  | cons x xs ih =>
    intro b c hx hb row hrow
    cases b with
    | nil => simp [matAnd] at hrow
    | cons y ys =>
      simp only [matAnd, List.zipWith_cons_cons, List.mem_cons] at hrow
      rcases hrow with h | h
      · subst h
        rw [List.length_zipWith, hx x (by simp), hb y (by simp)]
        omega
      · exact ih ys c (fun ra hra => hx ra (by simp [hra]))
          (fun rb hrb => hb rb (by simp [hrb])) row h

theorem matAnd_rect {r c : Nat} {a b : Mat Nat} (ha : Rect r c a) (hb : Rect r c b) :
    Rect r c (matAnd a b) := by
  refine ⟨?_, matAnd_row_len a b c ha.2 hb.2⟩
  rw [matAnd, List.length_zipWith, ha.1, hb.1]
  omega

theorem matShape_of_rect {α : Type} {r c : Nat} {m : Mat α}
    (h : Rect r c m) (hr : 0 < r) : matShape m = (r, c) := by
  obtain ⟨hlen, hrows⟩ := h
  cases m with
  | nil => simp at hlen; omega
  | cons row rest =>
    simp only [matShape, List.headD_cons]
    exact Prod.ext hlen (hrows row (by simp))

theorem rect_of_matShape {α : Type} {m : Mat α} {r c r2 c2 : Nat}
    (hrect : Rect r2 c2 m) (hlen : m.length = r) (hhead : (m.headD []).length = c)
    (hr : 0 < r) : Rect r c m := by
  obtain ⟨hlen2, hrows⟩ := hrect
  refine ⟨hlen, ?_⟩
  cases m with
  | nil => simp at hlen; omega
  | cons row rest =>
    intro row2 hrow2
    have hc : c2 = c := by
      have := hrows row (by simp)
      simp only [List.headD_cons] at hhead
      omega
    rw [← hc]
    exact hrows row2 hrow2

/-- Claim C3: when both rasters already have the native shape the written
mask is exactly their elementwise logical AND of the unresized images; in
every case (resizing first when a shape mismatches) the written mask has
the native shape `(nRowMrc, nColMrc)`; and the mask is written to the same
path the cell-mask image was read from, overwriting it in place. -/
theorem intersection_mask_spec (resize : Mat Nat → Nat → Nat → Mat Nat)
    (nRow nCol rCell cCell rOrg cOrg : Nat) (imgCell imgOrg : Mat Nat)
    (path_tmp : String) (zi : Int)
    (hr : 0 < nRow)
    (hres : ∀ m r c, Rect r c (resize m r c))
    (hcell : Rect rCell cCell imgCell) (horg : Rect rOrg cOrg imgOrg) :
    (matShape imgCell = (nRow, nCol) → matShape imgOrg = (nRow, nCol) →
      imgMaskOf resize nRow nCol imgCell imgOrg = matAnd imgCell imgOrg) ∧
    matShape (imgMaskOf resize nRow nCol imgCell imgOrg) = (nRow, nCol) ∧
    maskWritePath path_tmp zi = cellMaskTifPath path_tmp zi := by
  have hrcell : Rect nRow nCol (resizedCell resize nRow nCol imgCell imgOrg) := by
    rw [resizedCell]
    by_cases h : imgCell.length ≠ nRow ∨ (imgCell.headD []).length ≠ nCol
    · rw [if_pos h]; exact hres imgOrg nRow nCol
    · rw [if_neg h]
      push_neg at h
      exact rect_of_matShape hcell h.1 h.2 hr
  have hrorg : Rect nRow nCol (resizedOrg resize nRow nCol imgOrg) := by
    rw [resizedOrg]
    by_cases h : imgOrg.length ≠ nRow ∨ (imgOrg.headD []).length ≠ nCol
    · rw [if_pos h]; exact hres imgOrg nRow nCol
    · rw [if_neg h]
      push_neg at h
      exact rect_of_matShape horg h.1 h.2 hr
  refine ⟨?_, matShape_of_rect (matAnd_rect hrcell hrorg) hr, rfl⟩
  intro hsc hso
  rw [matShape] at hsc hso
  rw [imgMaskOf, resizedCell, resizedOrg, if_neg (by simp_all), if_neg (by simp_all)]

/-- A resize stub of the shape contract used to witness the theorems. -/
def constResize (_m : Mat Nat) (r c : Nat) : Mat Nat :=
  List.replicate r (List.replicate c 0)

theorem constResize_rect : ∀ (m : Mat Nat) (r c : Nat), Rect r c (constResize m r c) := by
  intro m r c
  refine ⟨by simp [constResize], ?_⟩
  intro row hrow
  rw [List.eq_of_mem_replicate hrow]
  simp

/-- Witness for C3 on concrete one-pixel rasters of matching shape. -/
theorem intersection_mask_spec_witness :
    ((0 : Nat) < 1 ∧
      (∀ m r c, Rect r c (constResize m r c)) ∧
      Rect 1 1 ([[5]] : Mat Nat) ∧ Rect 1 1 ([[0]] : Mat Nat)) ∧
    ((matShape ([[5]] : Mat Nat) = (1, 1) → matShape ([[0]] : Mat Nat) = (1, 1) →
        imgMaskOf constResize 1 1 [[5]] [[0]] = matAnd [[5]] [[0]]) ∧
      matShape (imgMaskOf constResize 1 1 [[5]] [[0]]) = (1, 1) ∧
      maskWritePath "/out/tmp" 3 = cellMaskTifPath "/out/tmp" 3) :=
  ⟨⟨by decide, constResize_rect, ⟨rfl, by simp⟩, ⟨rfl, by simp⟩⟩,
    intersection_mask_spec constResize 1 1 1 1 1 1 [[5]] [[0]] "/out/tmp" 3
      (by decide) constResize_rect ⟨rfl, by simp⟩ ⟨rfl, by simp⟩⟩

/-- Claim C5: in the resize block, a shape mismatch of the cell-mask image
replaces it with a resize whose source is the organelle image, and a shape
mismatch of the organelle image resizes the organelle image from itself. -/
theorem resize_source_is_organelle (resize : Mat Nat → Nat → Nat → Mat Nat)
    (nRow nCol : Nat) (imgCell imgOrg : Mat Nat) :
    (imgCell.length ≠ nRow ∨ (imgCell.headD []).length ≠ nCol →
      resizedCell resize nRow nCol imgCell imgOrg = resize imgOrg nRow nCol) ∧
    (imgOrg.length ≠ nRow ∨ (imgOrg.headD []).length ≠ nCol →
      resizedOrg resize nRow nCol imgOrg = resize imgOrg nRow nCol) := by
  constructor
  · intro h; rw [resizedCell, if_pos h]
  · intro h; rw [resizedOrg, if_pos h]

/-- A resize stub returning its source unchanged, which makes the source of
the resize observable in the witness below. -/
def sourceResize (m : Mat Nat) (_r _c : Nat) : Mat Nat := m

/-- Witness for C5: the mismatched 1x1 cell mask is replaced by (a resize
of) the 2x1 organelle raster, not by the cell raster. -/
theorem resize_source_is_organelle_witness :
    ((([[1]] : Mat Nat).length ≠ 2 ∨ (([[1]] : Mat Nat).headD []).length ≠ 1 →
        resizedCell sourceResize 2 1 [[1]] [[2], [3]] = sourceResize [[2], [3]] 2 1) ∧
      (([[2], [3]] : Mat Nat).length ≠ 2 ∨ (([[2], [3]] : Mat Nat).headD []).length ≠ 1 →
        resizedOrg sourceResize 2 1 [[2], [3]] = sourceResize [[2], [3]] 2 1)) ∧
    resizedCell sourceResize 2 1 [[1]] [[2], [3]] = [[2], [3]] :=
  ⟨resize_source_is_organelle sourceResize 2 1 [[1]] [[2], [3]],
    (resize_source_is_organelle sourceResize 2 1 [[1]] [[2], [3]]).1 (by decide)⟩

/-! ## Postprocessing object filter (lines 315-317)

The guarded call `mod.filterByNContours` is passed the strict greater-than
operator and the integer option value. -/

/-- An Object of a model: a name and its list of contours (each contour
abstracted to an identifier; only the count matters to the filter). -/
structure ImodObject where
  name : String
  contours : List Nat
deriving DecidableEq

/-- Modelled from the spec: `ImodModel.filterByNContours` with the strict
greater-than operator lives in the external `pyimod` library, outside this
repository.  Per the spec and
the help text of the `--filterByNContours` option, with the strict
greater-than operator it retains exactly the Objects whose contour count
exceeds `N` and removes the Objects with `N` or fewer contours. -/
def filterByNContours (objs : List ImodObject) (n : Nat) : List ImodObject :=
  objs.filter (fun o => decide (n < o.contours.length))

/-- Lines 315-317: the filter runs only when the option value is truthy. -/
def postFilterStep (filterOpt : Nat) (objs : List ImodObject) : List ImodObject :=
  if filterOpt ≠ 0 then filterByNContours objs filterOpt else objs

/-- Claim C8: with `--filterByNContours N` for `N > 0`, the postprocessing
filter keeps exactly the Objects whose contour count strictly exceeds `N`,
unchanged and in order, and every Object with `N` or fewer contours is
removed. -/
theorem filter_by_ncontours_strict (n : Nat) (objs : List ImodObject) (hn : 0 < n) :
    postFilterStep n objs = objs.filter (fun o => decide (n < o.contours.length)) ∧
    (∀ o ∈ objs, o.contours.length ≤ n → o ∉ postFilterStep n objs) ∧
    (∀ o ∈ objs, n < o.contours.length → o ∈ postFilterStep n objs) := by
  have hstep : postFilterStep n objs = objs.filter (fun o => decide (n < o.contours.length)) := by
    rw [postFilterStep, if_pos (by omega), filterByNContours]
  refine ⟨hstep, ?_, ?_⟩
  · intro o _ hle hmem
    rw [hstep] at hmem
    have := (List.mem_filter.mp hmem).2
    simp at this
    omega
  · intro o ho hgt
    rw [hstep]
    exact List.mem_filter.mpr ⟨ho, by simpa using hgt⟩

/-- Witness for C8: with threshold 2, an Object with 2 contours is removed
and an Object with 3 contours survives unchanged. -/
theorem filter_by_ncontours_strict_witness :
    (0 : Nat) < 2 ∧
    (postFilterStep 2 [ImodObject.mk "small" [1, 2], ImodObject.mk "big" [1, 2, 3]] =
        [ImodObject.mk "small" [1, 2], ImodObject.mk "big" [1, 2, 3]].filter
          (fun o => decide (2 < o.contours.length)) ∧
      (∀ o ∈ [ImodObject.mk "small" [1, 2], ImodObject.mk "big" [1, 2, 3]],
        o.contours.length ≤ 2 →
          o ∉ postFilterStep 2 [ImodObject.mk "small" [1, 2], ImodObject.mk "big" [1, 2, 3]]) ∧
      (∀ o ∈ [ImodObject.mk "small" [1, 2], ImodObject.mk "big" [1, 2, 3]],
        2 < o.contours.length →
          o ∈ postFilterStep 2 [ImodObject.mk "small" [1, 2], ImodObject.mk "big" [1, 2, 3]])) :=
  ⟨by decide,
    filter_by_ncontours_strict 2 [ImodObject.mk "small" [1, 2], ImodObject.mk "big" [1, 2, 3]]
      (by decide)⟩

/-! ## Organelle raster lookup (lines 211-212 and 238-239)

`filesOrg` is the Python `sorted` of the `glob` listing of the
segmentation directory, and the loop
reads `filesOrg[zi - 1]`.  Python list indexing accepts negative indices,
wrapping from the end; an index out of `[-len, len)` raises, modelled as
`none`. -/

/-- Python list subscription `l[i]`, including negative wraparound. -/
def pyGetItem {α : Type} (l : List α) (i : Int) : Option α :=
  if 0 ≤ i then l[i.toNat]?
  else if 0 ≤ i + l.length then l[(i + l.length).toNat]?
  else none

/-- The sorted segmentation directory listing (line 212): Python `sorted`
on the raw `glob` listing, under the lexicographic string order. -/
def filesOrgOf (listing : List String) : List String :=
  List.insertionSort (· ≤ ·) listing

/-- The organelle image chosen for slice `zi` (line 239): `filesOrg[zi - 1]`. -/
def orgLookup (filesOrg : List String) (zi : Int) : Option String :=
  pyGetItem filesOrg (zi - 1)

theorem sorted_le_getLast : ∀ (l : List String) (h : l ≠ []),
    l.Sorted (· ≤ ·) → ∀ a ∈ l, a ≤ l.getLast h := by
  intro l
  induction l with
  | nil => intro h; exact absurd rfl h
  | cons x rest ih =>
    intro h hs a ha
    cases rest with
    | nil =>
      simp only [List.mem_singleton] at ha
      subst ha
      exact le_refl _
    | cons y ys =>
      have hrne : y :: ys ≠ [] := by simp
      rw [List.getLast_cons hrne]
      rw [List.sorted_cons] at hs
      rcases List.mem_cons.mp ha with hax | har
      · subst hax
        exact hs.1 _ (List.getLast_mem hrne)
      · exact ih hrne hs.2 a har

/-- Claim C10: when `zlist` contains the value 0, the lookup
`filesOrg[zi - 1]` does not fail: Python evaluates `filesOrg[-1]`, the last
element of the sorted listing, which is greater than or equal to every file
name in the listing (the lexicographically last file), and that file is
silently used as the organelle image for the slice. -/
theorem org_lookup_zero_wraps (listing : List String) (h : filesOrgOf listing ≠ []) :
    orgLookup (filesOrgOf listing) 0 = some ((filesOrgOf listing).getLast h) ∧
    ∀ f ∈ filesOrgOf listing, f ≤ (filesOrgOf listing).getLast h := by
  have hsorted : (filesOrgOf listing).Sorted (· ≤ ·) :=
    List.sorted_insertionSort _ listing
  refine ⟨?_, sorted_le_getLast _ h hsorted⟩
  set l := filesOrgOf listing with hl
  have hpos : 0 < l.length := List.length_pos.mpr h
  rw [orgLookup, pyGetItem]
  rw [if_neg (show ¬ ((0 : Int) ≤ 0 - 1) by omega)]
  rw [if_pos (show (0 : Int) ≤ 0 - 1 + l.length by omega)]
  have hidx : ((0 : Int) - 1 + l.length).toNat = l.length - 1 := by omega
  rw [hidx, ← List.getLast?_eq_getElem?, List.getLast?_eq_getLast l h]

/-- Witness for C10 on the two-file listing `["b.png", "a.png"]`, whose
sorted form ends with `"b.png"`. -/
theorem org_lookup_zero_wraps_witness :
    orgLookup (filesOrgOf ["b.png", "a.png"]) 0 =
        some ((filesOrgOf ["b.png", "a.png"]).getLast
          (by simp [filesOrgOf, List.insertionSort, List.orderedInsert]; decide)) ∧
      ∀ f ∈ filesOrgOf ["b.png", "a.png"],
        f ≤ (filesOrgOf ["b.png", "a.png"]).getLast
          (by simp [filesOrgOf, List.insertionSort, List.orderedInsert]; decide) :=
  org_lookup_zero_wraps ["b.png", "a.png"]
    (by simp [filesOrgOf, List.insertionSort, List.orderedInsert]; decide)

end Segmask
